import Mathlib

/-!
Shallow embedding of `aversion.py` (klmitch/aversion): an HTTP
content-negotiation and API-version dispatch middleware.

Conventions of the embedding:
* Python strings are Lean `String`s; character-level work is done on
  `String.data` (`List Char`).
* Python dicts are insertion-ordered association lists
  (`List (String × α)`); assignment (`setVal`) overwrites in place.
* Python floats are modelled as exact rationals (`ℚ`): `float(s)` becomes
  a decimal parser `pyFloat : String → Option ℚ` (with `none` for
  `ValueError`).  IEEE specials (`inf`, `nan`) and PEP-515 underscores are
  outside the model.
* Fallible code returns `Except PyErr` / `Option`; an uncaught Python
  exception (e.g. a `NameError` on an undefined local) is an `.error`.
-/

namespace Aversion

/-- A value stored in a content-type parameter dictionary: either a string
or the Python boolean `True` (used for bare flag parameters). -/
inductive PVal : Type
  | str (s : String)
  | tru
deriving DecidableEq, Repr

/-- A Python dict with string keys, as an insertion-ordered assoc list. -/
abbrev Dict (α : Type) := List (String × α)

/-- Python dict lookup: first (unique) binding of `k`. -/
def getVal {α : Type} : Dict α → String → Option α
  | [], _ => none
  | (k, v) :: rest, key => if k = key then some v else getVal rest key

instance {ε α : Type} [DecidableEq ε] [DecidableEq α] :
    DecidableEq (Except ε α) := fun x y =>
  match x, y with
  | Except.ok a, Except.ok b =>
      if h : a = b then isTrue (by rw [h]) else isFalse (by simp [h])
  | Except.error a, Except.error b =>
      if h : a = b then isTrue (by rw [h]) else isFalse (by simp [h])
  | Except.ok _, Except.error _ => isFalse (by simp)
  | Except.error _, Except.ok _ => isFalse (by simp)

/-- Python dict assignment: overwrite in place, else append. -/
def setVal {α : Type} : Dict α → String → α → Dict α
  | [], key, v => [(key, v)]
  | (k, w) :: rest, key, v =>
      if k = key then (k, v) :: rest else (k, w) :: setVal rest key v

/-- Auxiliary walk for `quoted_split`: `acc` is the slice accumulated since
the last yield (`none` = Python's `start is None`), `esc`/`quo` are the
`escape`/`quote` flags.  Transcribes the character loop of
`quoted_split` in `aversion.py` (the separator is dropped, every other
character is kept; the final slice is yielded only if started). -/
def qsplitAux (sep : Char) : List Char → Option (List Char) → Bool → Bool →
    List (List Char)
  | [], acc, _, _ =>
      match acc with
      | none => []
      | some a => [a]
  | c :: rest, acc, esc, quo =>
      let a := acc.getD []
      if esc then qsplitAux sep rest (some (a ++ [c])) false quo
      else if quo then
        if c = '\\' then qsplitAux sep rest (some (a ++ [c])) true true
        else if c = '"' then qsplitAux sep rest (some (a ++ [c])) false false
        else qsplitAux sep rest (some (a ++ [c])) false true
      else if c = sep then a :: qsplitAux sep rest none false false
      else if c = '"' then qsplitAux sep rest (some (a ++ [c])) false true
      else qsplitAux sep rest (some (a ++ [c])) false quo

/-- Embeds `quoted_split(string, sep)`: split on `sep` outside double-quoted
sections (with backslash escapes inside quotes). -/
def quotedSplit (s : String) (sep : Char) : List String :=
  (qsplitAux sep s.data none false false).map String.mk

/-- Embeds `unquote(quoted)`: strip one leading and one trailing double quote when
both are present (`quoted[:1] == '"' and quoted[-1:] == '"'`). -/
def unquote (s : String) : String :=
  match s.data with
  | [] => s
  | c :: rest =>
      if c = '"' ∧ (c :: rest).getLast? = some '"' then
        String.mk rest.dropLast
      else s

/-- One `key[=value]` segment of `parse_ctype`: if `=` occurs at a positive
index with no `"` before it, split there and unquote the value; otherwise
the whole segment becomes a `True`-valued flag key. -/
def ctypeParamStep (params : Dict PVal) (part : String) : Dict PVal :=
  match part.data.findIdx? (· = '=') with
  | some i =>
      if 0 < i ∧ ¬ (part.data.take i).contains '"' then
        setVal params (String.mk (part.data.take i))
          (PVal.str (unquote (String.mk (part.data.drop (i + 1)))))
      else setVal params part PVal.tru
  | none => setVal params part PVal.tru

/-- Embeds `parse_ctype(ctype)`: split on `;`, first segment is the media-type
name (also stored under the reserved key `_`), remaining segments are
parameters.  No segments at all gives `("", ∅)`. -/
def parseCtype (ctype : String) : String × Dict PVal :=
  match quotedSplit ctype ';' with
  | [] => ("", [])
  | name :: parts =>
      (name, parts.foldl ctypeParamStep [("_", PVal.str name)])

/-- The major component of a content type: `ctype.split('/', 1)[0]`. -/
def majorOf (ctype : String) : String :=
  String.mk (ctype.data.takeWhile (· ≠ '/'))

/-- Embeds `_match_mask(mask, ctype)`. -/
def matchMask (mask ctype : String) : Bool :=
  if ¬ mask.data.contains '*' then ctype = mask
  else if mask = "*/*" then true
  else if ¬ List.isSuffixOf ['/', '*'] mask.data then false
  else majorOf ctype = String.mk (mask.data.dropLast.dropLast)

/-- Number of `*` characters in a pattern (`mask.count('*')`). -/
def starCount (mask : String) : Nat :=
  (mask.data.filter (· = '*')).length

/-- ASCII whitespace stripped by Python's `float()` / `str.strip()`. -/
def isPyWs (c : Char) : Bool :=
  c = ' ' ∨ c = '\t' ∨ c = '\n' ∨ c = '\r' ∨ c = '\x0b' ∨ c = '\x0c'

/-- Strip leading and trailing whitespace from a character list. -/
def stripWs (cs : List Char) : List Char :=
  ((cs.dropWhile isPyWs).reverse.dropWhile isPyWs).reverse

/-- Longest leading run of decimal digits, and the remainder. -/
def digitSpan : List Char → List Char × List Char
  | [] => ([], [])
  | c :: rest =>
      if c.isDigit then
        let (d, r) := digitSpan rest
        (c :: d, r)
      else ([], c :: rest)

/-- Numeric value of a digit string. -/
def digitsToNat (ds : List Char) : Nat :=
  ds.foldl (fun n c => 10 * n + (c.toNat - 48)) 0

/-- Optional `+`/`-` sign: returns (is-negative, remainder). -/
def signSpan : List Char → Bool × List Char
  | '+' :: rest => (false, rest)
  | '-' :: rest => (true, rest)
  | cs => (false, cs)

/-- Exponent part `([eE][+-]?digits)?` of a float literal: the exponent
value, or `none` if the text is malformed / has trailing garbage. -/
def expSpan : List Char → Option Int
  | [] => some 0
  | c :: rest =>
      if c = 'e' ∨ c = 'E' then
        let (eneg, rest1) := signSpan rest
        let (eds, rest2) := digitSpan rest1
        if eds = [] ∨ rest2 ≠ [] then none
        else some (if eneg then -(digitsToNat eds : Int) else digitsToNat eds)
      else none

/-- Python's `float(s)` on decimal literals, as an exact rational:
optional whitespace and sign, `digits[.digits][exp]` or `.digits[exp]`.
IEEE specials (`inf`/`nan`) and digit-group underscores are outside the
model (no `q` value in scope uses them). -/
def pyFloat (s : String) : Option ℚ :=
  let cs := stripWs s.data
  let (neg, cs1) := signSpan cs
  let (ip, cs2) := digitSpan cs1
  let frac := match cs2 with
    | '.' :: rest => digitSpan rest
    | _ => ([], cs2)
  let fp := frac.1
  let cs4 := frac.2
  if ip = [] ∧ fp = [] then none
  else match expSpan cs4 with
    | none => none
    | some e =>
        let mant : Int := digitsToNat (ip ++ fp)
        let mant := if neg then -mant else mant
        -- value = mant · 10^(e - |fp|), written as one exact fraction
        let shift : Int := e - fp.length
        some (if 0 ≤ shift then mkRat (mant * (10 ^ shift.toNat : Nat)) 1
              else mkRat mant (10 ^ (-shift).toNat))

/-- The quality value of a parsed pattern: `float(params.get('q', 1.0))`.
A missing `q` defaults to `1.0`; a bare flag `q` is Python `True`, and
`float(True) = 1.0`; an unparsable string is a `ValueError` (`none`). -/
def qOf (params : Dict PVal) : Option ℚ :=
  match getVal params "q" with
  | none => some 1
  | some PVal.tru => some 1
  | some (PVal.str s) => pyFloat s

/-- The running "best" state of `best_match` (and, equally, one candidate
comparison entry): fields mirror `best_ctype`, `best_match` (the pattern),
`best_params` and `best_q`. -/
structure Cand : Type where
  ctype : String
  mask : String
  params : Dict PVal
  q : ℚ
deriving DecidableEq

/-- The initial seed of `best_match`: `q=-1`, pattern `*/*`, empty
content type and parameters. -/
def seedCand : Cand := ⟨"", "*/*", [], mkRat (-1) 1⟩

/-- One inner-loop iteration of `best_match` for allowed name `ctype` and
requested pair `mp = (pattern, params)`: skip on unparsable `q`, skip when
`q < best_q`, skip on a `q` tie unless the new pattern has strictly fewer
`*`s, then update only if the pattern matches. -/
def bmStep (ctype : String) (st : Cand) (mp : String × Dict PVal) : Cand :=
  match qOf mp.2 with
  | none => st
  | some q =>
      if q < st.q then st
      else if q = st.q ∧ starCount st.mask ≤ starCount mp.1 then st
      else if matchMask mp.1 ctype then ⟨ctype, mp.1, mp.2, q⟩ else st

/-- Embeds `best_match(requested, allowed)`: parse the header into
(pattern, params) pairs, then run the nested loops over allowed names and
patterns, returning the best content type and its parameters. -/
def bestMatch (requested : String) (allowed : List String) :
    String × Dict PVal :=
  let reqs := (quotedSplit requested ',').map parseCtype
  let final := allowed.foldl (fun st ctype => reqs.foldl (bmStep ctype) st)
    seedCand
  (final.ctype, final.params)

/-- The comparison key of a candidate, as the spec words it: higher `q`
first, then fewer `*`s in the pattern (lexicographically). -/
def candKey (c : Cand) : ℚ ×ₗ ℤ :=
  toLex (c.q, -(starCount c.mask : ℤ))

/-- The candidate formed from allowed name `ctype` and requested pair
`mp`, if `q` parses and the pattern matches. -/
def mkCand (ctype : String) (mp : String × Dict PVal) : Option Cand :=
  match qOf mp.2 with
  | none => none
  | some q => if matchMask mp.1 ctype then some ⟨ctype, mp.1, mp.2, q⟩
      else none

/-- All comparison candidates of `best_match`, in iteration order
(allowed-name major, header order minor). -/
def bmCandidates (requested : String) (allowed : List String) : List Cand :=
  allowed.flatMap fun ctype =>
    ((quotedSplit requested ',').map parseCtype).filterMap (mkCand ctype)

/-- The pure comparison step over formed candidates: keep the running
best unless the new candidate ranks strictly higher. -/
def bmSel (st c : Cand) : Cand :=
  if candKey st < candKey c then c else st

/-- Selection rule as the (amended) spec states it: among the matching
candidates with parsable quality, together with the seed (`q = -1`,
pattern `*/*`), select the first candidate with the greatest key
(highest `q`, then fewest `*`s); `List.argmax` returns the first maximum,
so a full tie is won by the earliest candidate in iteration order, i.e.
by the earliest allowed name.  If the seed itself wins, nothing beat it
and the result is `("", ∅)`. -/
def specBestMatch (requested : String) (allowed : List String) :
    String × Dict PVal :=
  match List.argmax candKey (seedCand :: bmCandidates requested allowed) with
  | some c => (c.ctype, c.params)
  | none => ("", [])

/-- Selection rule exactly as claim C1 states it (no seed): the candidate
with the highest `q` (ties: fewer `*`s, then earliest allowed name) wins
whenever any candidate exists; `("", ∅)` only when nothing matches. -/
def claimBestMatch (requested : String) (allowed : List String) :
    String × Dict PVal :=
  match List.argmax candKey (bmCandidates requested allowed) with
  | some c => (c.ctype, c.params)
  | none => ("", [])

/-- Outcome of Python's `%`-formatting of a template against a parameter
dict: success, an (uncaught, in `TypeRule`) `KeyError` for a missing
mapping key, or an (uncaught anywhere) `ValueError`/`TypeError` for a
malformed placeholder. -/
inductive FmtRes : Type
  | ok (s : String)
  | keyErr
  | valErr
deriving DecidableEq, Repr

/-- Python `str()` of a parameter value, as used by a `%(name)s` placeholder. -/
def pvalStr : PVal → String
  | PVal.str s => s
  | PVal.tru => "True"

/-- Scanner state for `pyFormatAux`: plain text, just after `%`,
inside a `%(name` key, or after the key awaiting the conversion char. -/
inductive FmtMode : Type
  | plain
  | afterPct
  | inKey (name : List Char)
  | conv (name : List Char)

/-- Single pass over a `%`-format string.  Supported placeholders are
`%%` and mapping keys `%(name)s` — the only forms the rule language uses;
any other conversion (and a dangling `%` or unclosed key) is the
uncaught-error case `valErr`.  A missing mapping key is `keyErr`
(evaluated before the conversion character, as CPython does). -/
def pyFormatAux (params : Dict PVal) : List Char → FmtMode → List Char →
    FmtRes
  | [], FmtMode.plain, acc => FmtRes.ok (String.mk acc)
  | [], _, _ => FmtRes.valErr
  | c :: rest, FmtMode.plain, acc =>
      if c = '%' then pyFormatAux params rest FmtMode.afterPct acc
      else pyFormatAux params rest FmtMode.plain (acc ++ [c])
  | c :: rest, FmtMode.afterPct, acc =>
      if c = '%' then pyFormatAux params rest FmtMode.plain (acc ++ ['%'])
      else if c = '(' then pyFormatAux params rest (FmtMode.inKey []) acc
      else FmtRes.valErr
  | c :: rest, FmtMode.inKey name, acc =>
      if c = ')' then pyFormatAux params rest (FmtMode.conv name) acc
      else pyFormatAux params rest (FmtMode.inKey (name ++ [c])) acc
  | c :: rest, FmtMode.conv name, acc =>
      match getVal params (String.mk name) with
      | none => FmtRes.keyErr
      | some v =>
          if c = 's' then
            pyFormatAux params rest FmtMode.plain (acc ++ (pvalStr v).data)
          else FmtRes.valErr

/-- Evaluates `template % params` for the supported placeholder fragment. -/
def pyFormat (template : String) (params : Dict PVal) : FmtRes :=
  pyFormatAux params template.data FmtMode.plain []

/-- Embeds `TypeRule.__init__(self, ctype, version)`: the two optional format
templates (`None` is `none`). -/
structure TypeRule : Type where
  ctype : Option String
  version : Option String
deriving DecidableEq, Repr

/-- The `ctype` half of `TypeRule.__call__`:
`(self.ctype % params) if self.ctype else params['_']`, with `KeyError`
caught to `None`; an empty template is falsy, so it falls back to
`params['_']`, whose own missing-key `KeyError` is equally caught. -/
def typeRuleCtype (tmpl : Option String) (params : Dict PVal) :
    Except Unit (Option PVal) :=
  match tmpl with
  | some c =>
      if c = "" then Except.ok (getVal params "_")
      else
        match pyFormat c params with
        | FmtRes.ok s => Except.ok (some (PVal.str s))
        | FmtRes.keyErr => Except.ok none
        | FmtRes.valErr => Except.error ()
  | none => Except.ok (getVal params "_")

/-- The `version` half of `TypeRule.__call__`:
`(self.version % params) if self.version else None`, `KeyError` → `None`. -/
def typeRuleVersion (tmpl : Option String) (params : Dict PVal) :
    Except Unit (Option String) :=
  match tmpl with
  | some v =>
      if v = "" then Except.ok none
      else
        match pyFormat v params with
        | FmtRes.ok s => Except.ok (some s)
        | FmtRes.keyErr => Except.ok none
        | FmtRes.valErr => Except.error ()
  | none => Except.ok none

/-- Embeds `TypeRule.__call__(self, params)`: the final (content type, version)
pair; `.error` is an uncaught formatting exception. -/
def TypeRule.call (t : TypeRule) (params : Dict PVal) :
    Except Unit (Option PVal × Option String) := do
  let c ← typeRuleCtype t.ctype params
  let v ← typeRuleVersion t.version params
  return (c, v)

/-- Embeds `Result.__init__`: both selections start undetermined. -/
structure Result : Type where
  version : Option String
  ctype : Option String
deriving DecidableEq, Repr

/-- Embeds `Result.__nonzero__`: fully populated. -/
def Result.nonzero (r : Result) : Bool :=
  r.version.isSome && r.ctype.isSome

/-- Embeds `Result.set_version`: first writer wins. -/
def Result.setVersion (r : Result) (version : String) : Result :=
  match r.version with
  | none => { r with version := some version }
  | some _ => r

/-- Embeds `Result.set_ctype`: first writer wins. -/
def Result.setCtype (r : Result) (ctype : String) : Result :=
  match r.ctype with
  | none => { r with ctype := some ctype }
  | some _ => r

/-- A call against a `Result`, for reasoning about call sequences. -/
inductive ROp : Type
  | setVersion (s : String)
  | setCtype (s : String)
deriving DecidableEq, Repr

/-- Apply a sequence of `set_version` / `set_ctype` calls in order. -/
def applyROps (r : Result) (ops : List ROp) : Result :=
  ops.foldl (fun r op =>
    match op with
    | ROp.setVersion s => r.setVersion s
    | ROp.setCtype s => r.setCtype s) r

/-- Warnings logged by `_parse_type_rule` (order preserved). -/
inductive Warn : Type
  | invalidToken
  | unrecognizedTokenType
  | duplicateTokenType
  | unrecognizedTokenValue
deriving DecidableEq, Repr

/-- Python `str.split()` with no argument: split on runs of whitespace,
producing no empty tokens. -/
def splitWsAux : List Char → List Char → List (List Char)
  | [], acc => if acc = [] then [] else [acc]
  | c :: rest, acc =>
      if isPyWs c then
        if acc = [] then splitWsAux rest []
        else acc :: splitWsAux rest []
      else splitWsAux rest (acc ++ [c])

/-- Embeds `token.partition(':')`: text before the first `:` and text after it
(the whole token and `""` when there is no `:`). -/
def partitionColon (token : List Char) : List Char × List Char :=
  match token.findIdx? (· = ':') with
  | some i => (token.take i, token.drop (i + 1))
  | none => (token, [])

/-- One token of `_parse_type_rule`: updates the `params` table and the
warning log.  A token without a value is invalid; a tag other than
`type`/`version` is unrecognized; a duplicate tag warns but still
overwrites; a value not wrapped in matching `"`/`'` quotes of length
`> 2` is rejected. -/
def typeRuleToken (st : Dict String × List Warn) (token : List Char) :
    Dict String × List Warn :=
  let (params, warns) := st
  let (tokType, tokVal) := partitionColon token
  if tokVal = [] then (params, warns ++ [Warn.invalidToken])
  else if ¬ (tokType = "type".data ∨ tokType = "version".data) then
    (params, warns ++ [Warn.unrecognizedTokenType])
  else
    let warns := if (getVal params (String.mk tokType)).isSome then
      warns ++ [Warn.duplicateTokenType] else warns
    if tokVal.length ≤ 2 ∨ ¬ (tokVal.head? = some '"' ∨ tokVal.head? = some '\'')
        ∨ tokVal.head? ≠ tokVal.getLast? then
      (params, warns ++ [Warn.unrecognizedTokenValue])
    else
      (setVal params (String.mk tokType)
        (String.mk (tokVal.drop 1).dropLast), warns)

/-- Embeds `_parse_type_rule(ctype, typespec)`: fold the whitespace-separated
tokens, then build the `TypeRule` from the `type`/`version` entries.
(The `ctype` argument only labels log lines; warnings are returned.) -/
def parseTypeRule (typespec : String) : TypeRule × List Warn :=
  let (params, warns) :=
    (splitWsAux typespec.data []).foldl typeRuleToken ([], [])
  (⟨getVal params "type", getVal params "version"⟩, warns)

/-- Collapse runs of `/` into a single `/` (`SLASH_RE.sub('/', uri)`);
the flag records whether the previous kept character was `/`. -/
def collapseSlashAux : List Char → Bool → List Char
  | [], _ => []
  | c :: rest, prev =>
      if c = '/' then
        if prev then collapseSlashAux rest true
        else '/' :: collapseSlashAux rest true
      else c :: collapseSlashAux rest false

/-- Python `str.strip('/')`. -/
def stripSlash (cs : List Char) : List Char :=
  ((cs.dropWhile (· = '/')).reverse.dropWhile (· = '/')).reverse

/-- Embeds `_uri_normalize(uri)`: collapse multiple slashes, strip leading and
trailing slashes, prepend `/`. -/
def uriNormalize (uri : String) : String :=
  String.mk ('/' :: stripSlash (collapseSlashAux uri.data false))

/-- Uncaught Python exceptions raised by the embedded code paths. -/
inductive PyErr : Type
  | nameError
  | indexError
deriving DecidableEq, Repr

/-- The state built by `AVersion.__init__`.  Application handles are
modelled as their configured names (`loader.get_app` is injected and
treated as the identity on names). -/
structure AVState : Type where
  version_app : Option String
  versions : Dict String
  uris : List (String × String)
  types : Dict TypeRule
  formats : Dict String
deriving DecidableEq, Repr

/-- The configuration fold of `AVersion.__init__`.  It mirrors the
source's `elif` chain, including its three slips:
* `key == 'version'` binds the resolved fallback to a *local*
  `version_app`, so `self.version_app` stays `None`;
* `key.startswith('type.')` assigns into an undefined local `types`
  (`NameError`), and a leading-`.` key into an undefined local `formats`
  (`NameError`);
* an empty key reaches `key[0]` (`IndexError`). -/
def avInitFold : List (String × String) → Dict String → Dict String →
    Except PyErr (Dict String × Dict String)
  | [], versions, uris => Except.ok (versions, uris)
  | (key, value) :: rest, versions, uris =>
      if key = "version" then avInitFold rest versions uris
      else if List.isPrefixOf "version.".data key.data then
        avInitFold rest
          (setVal versions (String.mk (key.data.drop 8)) value) uris
      else if List.isPrefixOf "uri.".data key.data then
        avInitFold rest versions
          (setVal uris (uriNormalize (String.mk (key.data.drop 4))) value)
      else if List.isPrefixOf "type.".data key.data then
        Except.error PyErr.nameError
      else if key = "" then Except.error PyErr.indexError
      else if key.data.head? = some '.' then Except.error PyErr.nameError
      else avInitFold rest versions uris

/-- Stable insertion keeping longer (or equal, earlier-seen) URI prefixes
first. -/
def insDesc (x : String × String) : List (String × String) →
    List (String × String)
  | [] => [x]
  | y :: ys =>
      if x.1.length ≤ y.1.length then y :: insDesc x ys else x :: y :: ys

/-- Embeds `sorted(uris.items(), key=lambda x: len(x[0]), reverse=True)`:
stable, descending by prefix length. -/
def sortLenDesc (l : List (String × String)) : List (String × String) :=
  l.foldl (fun acc x => insDesc x acc) []

/-- Embeds `AVersion.__init__(loader, global_conf, **local_conf)`. -/
def avInit (conf : List (String × String)) : Except PyErr AVState :=
  match avInitFold conf [] [] with
  | Except.error e => Except.error e
  | Except.ok (versions, uris) =>
      Except.ok ⟨none, versions, sortLenDesc uris, [], []⟩

/-- The request fields `_proc_uri` touches. -/
structure Request : Type where
  pathInfo : String
  scriptName : String
deriving DecidableEq, Repr

/-- The suffix scan of `_proc_uri`: first matching suffix sets the
content type (first-write) and is stripped from the path. -/
def formatScan : Dict String → Request → Result → Request × Result
  | [], req, res => (req, res)
  | (fmt, ctype) :: rest, req, res =>
      if List.isSuffixOf fmt.data req.pathInfo.data then
        let trimmed := String.mk (req.pathInfo.data.take
          (req.pathInfo.data.length - fmt.data.length))
        ({ req with pathInfo := trimmed }, res.setCtype ctype)
      else formatScan rest req res

/-- Embeds `AVersion._proc_uri(request, result)`.  The prefix loop's body
compares `request.path_info` against an undefined name `uri` (the loop
variable is `prefix`), so the first iteration raises `NameError`: any
non-empty routing table with a not-yet-determined result errors; with an
empty table the loop body never runs and only the suffix scan happens. -/
def procUri (uris : List (String × String)) (formats : Dict String)
    (req : Request) (res : Result) : Except PyErr (Request × Result) :=
  if res.nonzero then Except.ok (req, res)
  else
    match uris with
    | _ :: _ => Except.error PyErr.nameError
    | [] => Except.ok (formatScan formats req res)

/-- Embeds `self.versions.get(result.version, self.version_app)`: look the
selected version up in the application table, defaulting to the fallback
slot. -/
def resolveApp (st : AVState) (version : Option String) : Option String :=
  match (match version with
         | some v => getVal st.versions v
         | none => none) with
  | some app => some app
  | none => st.version_app

/-- What `__call__` does with the selected handle: the source passes it
(possibly `None`) straight to `request.get_response`; `serverError` is
the spec's reported-5xx outcome, which the source never produces. -/
inductive DispatchOutcome : Type
  | getResponse (app : Option String)
  | serverError
deriving DecidableEq, Repr

/-- The handle-selection and forwarding step of `AVersion.__call__`:
unconditionally `request.get_response(app)`. -/
def codeDispatch (st : AVState) (res : Result) : DispatchOutcome :=
  DispatchOutcome.getResponse (resolveApp st res.version)

/-- Python truthiness of an optional string (`None` and `''` falsy). -/
def pyTruthyStr : Option String → Bool
  | none => false
  | some s => s ≠ ""

/-- The Accept-header mutation of `AVersion.__call__`:
`if result.ctype: request.headers['Accept'] = '%s;q=1.0' % result.ctype`,
with no flag consulted. -/
def codeAcceptRewrite (res : Result) (headers : Dict String) :
    Dict String :=
  if pyTruthyStr res.ctype then
    setVal headers "Accept" ((res.ctype.getD "") ++ ";q=1.0")
  else headers

/-- ASCII `str.lower()`. -/
def pyLowerStr (s : String) : String :=
  String.mk (s.data.map Char.toLower)

/-- Python `int(s)` on decimal literals. -/
def pyInt (s : String) : Option Int :=
  let cs := stripWs s.data
  let (neg, cs1) := signSpan cs
  let (ds, rest) := digitSpan cs1
  if ds = [] ∨ rest ≠ [] then none
  else some (if neg then -(digitsToNat ds : Int) else digitsToNat ds)

/-- Modelled from the spec: the §4.7 fuzzy boolean, which the source
does not implement.  Lower-cased truthy/falsy word sets, then integer
parsing (`≠ 0`), else a logged warning and the default `True`. -/
def specFuzzyBool (value : String) : Bool :=
  let v := pyLowerStr value
  if v = "true" ∨ v = "t" ∨ v = "on" ∨ v = "yes" ∨ v = "enable" then true
  else if v = "false" ∨ v = "f" ∨ v = "off" ∨ v = "no" ∨ v = "disable" then
    false
  else match pyInt value with
    | some n => n ≠ 0
    | none => true

/-- Modelled from the spec: the `overwrite_headers` configuration flag
(fuzzy boolean, default `True`), which the source never reads. -/
def specOverwriteFlag (conf : List (String × String)) : Bool :=
  match getVal conf "overwrite_headers" with
  | some v => specFuzzyBool v
  | none => true

/-- Modelled from the spec: the Accept-header mutation guarded by the
header-rewrite flag ("if a final content type exists and header
rewriting is enabled, rewrite the outbound Accept header"). -/
def specAcceptRewrite (flag : Bool) (res : Result) (headers : Dict String) :
    Dict String :=
  if flag && pyTruthyStr res.ctype then
    setVal headers "Accept" ((res.ctype.getD "") ++ ";q=1.0")
  else headers

/-- Modelled from the spec: handle resolution as claim C4 states it —
build the alias table from `alias.<A>` keys and the application table
from `version.<V>` keys, resolve the winning version through the alias
table, look it up, and fall back to the `version` handle. -/
def claimResolve (conf : List (String × String)) (version : Option String) :
    Option String :=
  let aliases := conf.foldl (fun d kv =>
    if List.isPrefixOf "alias.".data kv.1.data then
      setVal d (String.mk (kv.1.data.drop 6)) kv.2
    else d) []
  let apps := conf.foldl (fun d kv =>
    if kv.1 ≠ "version" ∧ List.isPrefixOf "version.".data kv.1.data then
      setVal d (String.mk (kv.1.data.drop 8)) kv.2
    else d) []
  let fallback := getVal conf "version"
  let canon := version.map fun v => (getVal aliases v).getD v
  match canon.bind (getVal apps) with
  | some app => some app
  | none => fallback

/-- Modelled from the spec: the UnresolvedRoute behaviour — no handle at
all yields a server-error response and the backend is never invoked. -/
def specDispatch (st : AVState) (res : Result) : DispatchOutcome :=
  match resolveApp st res.version with
  | some app => DispatchOutcome.getResponse (some app)
  | none => DispatchOutcome.serverError

/-- The `ctype` field as claim C10 reads it: a *present* template is
formatted even when it is the empty string. -/
def claimCtypeEval (tmpl : Option String) (params : Dict PVal) :
    Option PVal :=
  match tmpl with
  | some c =>
      match pyFormat c params with
      | FmtRes.ok s => some (PVal.str s)
      | _ => none
  | none => getVal params "_"

/-- The `ctype` field as amended: a non-empty template is formatted
(missing key → `None`); a `None` *or empty* template falls back to
`params['_']` (missing → `None`). -/
def specCtypeEval (tmpl : Option String) (params : Dict PVal) :
    Option PVal :=
  match tmpl with
  | some c =>
      if c = "" then getVal params "_"
      else
        match pyFormat c params with
        | FmtRes.ok s => some (PVal.str s)
        | _ => none
  | none => getVal params "_"

/-- The `version` field as amended: a non-empty template is formatted
(missing key → `None`); a `None` or empty template yields `None`. -/
def specVersionEval (tmpl : Option String) (params : Dict PVal) :
    Option String :=
  match tmpl with
  | some v =>
      if v = "" then none
      else
        match pyFormat v params with
        | FmtRes.ok s => some s
        | _ => none
  | none => none

/-- A template whose formatting against `params` raises no uncaught
(`ValueError`-class) exception. -/
def FmtSafe (tmpl : Option String) (params : Dict PVal) : Prop :=
  ∀ c, tmpl = some c → pyFormat c params ≠ FmtRes.valErr

instance : ∀ (tmpl : Option String) (params : Dict PVal),
    Decidable (FmtSafe tmpl params)
  | none, _ => isTrue (fun c h => by cases h)
  | some c, params =>
      if h : pyFormat c params = FmtRes.valErr then
        isFalse (fun hs => hs c rfl h)
      else isTrue (fun d hd => Option.some.inj hd ▸ h)

/-- Head-only map, for describing split fields. -/
def mapHead (g : List Char → List Char) : List (List Char) →
    List (List Char)
  | [] => []
  | f :: fs => g f :: fs

/-- Plain full split on a separator: one field per separator plus a
final field, empty fields included (Python's `str.split(sep)`). -/
def naiveSplit (sep : Char) : List Char → List (List Char)
  | [] => [[]]
  | c :: rest =>
      if c = sep then [] :: naiveSplit sep rest
      else
        match naiveSplit sep rest with
        | [] => [[c]]
        | f :: fs => (c :: f) :: fs

/-- Drop a final empty field, if any. -/
def dropLastEmpty (l : List (List Char)) : List (List Char) :=
  match l.getLast? with
  | some [] => l.dropLast
  | _ => l

/-- Whether a string is free of double quotes (so the quote machinery of
`quoted_split` is never engaged). -/
def noQuote (cs : List Char) : Prop := ¬ cs.contains '"'

instance (cs : List Char) : Decidable (noQuote cs) := by
  unfold noQuote; infer_instance

/-! ### Theorems -/

theorem setVersion_keeps (r : Result) (v s : String)
    (h : r.version = some v) : (r.setVersion s).version = some v := by
  unfold Result.setVersion
  rw [h]
  exact h

theorem setCtype_keeps (r : Result) (c s : String)
    (h : r.ctype = some c) : (r.setCtype s).ctype = some c := by
  unfold Result.setCtype
  rw [h]
  exact h

theorem setCtype_version (r : Result) (s : String) :
    (r.setCtype s).version = r.version := by
  unfold Result.setCtype
  cases r.ctype <;> rfl

theorem setVersion_ctype (r : Result) (s : String) :
    (r.setVersion s).ctype = r.ctype := by
  unfold Result.setVersion
  cases r.version <;> rfl

/-- Claim C9: the Result accumulator is first-writer-wins — across any
sequence of `set_version`/`set_ctype` calls, a field holding a non-`None`
value is never changed by a later call — and a Result is fully
determined (truthy) exactly when both `ctype` and `version` are
non-`None`. -/
theorem result_first_writer_wins :
    (∀ (r : Result) (ops : List ROp) (v : String),
        r.version = some v → (applyROps r ops).version = some v) ∧
    (∀ (r : Result) (ops : List ROp) (c : String),
        r.ctype = some c → (applyROps r ops).ctype = some c) ∧
    (∀ r : Result, r.nonzero = true ↔ r.version ≠ none ∧ r.ctype ≠ none) := by
  refine ⟨?_, ?_, ?_⟩
  · intro r ops
    induction ops generalizing r with
    | nil => intro v h; exact h
    | cons op rest ih =>
        intro v h
        cases op with
        | setVersion s => exact ih _ _ (setVersion_keeps r v s h)
        | setCtype s => exact ih _ _ ((setCtype_version r s).trans h)
  · intro r ops
    induction ops generalizing r with
    | nil => intro c h; exact h
    | cons op rest ih =>
        intro c h
        cases op with
        | setVersion s => exact ih _ _ ((setVersion_ctype r s).trans h)
        | setCtype s => exact ih _ _ (setCtype_keeps r c s h)
  · intro r
    unfold Result.nonzero
    cases hv : r.version <;> cases hc : r.ctype <;> simp

/-- Witness for C9 at the claim's own example: after `set_version('v1')`
the version is `v1`, and a further `set_version('v2')` leaves it `v1`. -/
theorem result_first_writer_wins_witness :
    (applyROps ⟨some "v1", none⟩ [ROp.setVersion "v2"]).version = some "v1" :=
  result_first_writer_wins.1 ⟨some "v1", none⟩ [ROp.setVersion "v2"] "v1" rfl

/-- Claim C2: the URI stage cannot run at all — the prefix-scan body of
`_proc_uri` references the undefined name `uri` (the loop variable is
`prefix`), so on the claim's own example (uris `[('/v1','v1')]`, formats
`{'.a':'a/a'}`, path `/v1/.a`, undetermined result) the first loop
iteration raises `NameError` instead of producing version `v1`, content
type `a/a` and trimmed path `/`. -/
theorem proc_uri_raises_name_error :
    procUri [("/v1", "v1")] [(".a", "a/a")] ⟨"/v1/.a", ""⟩ ⟨none, none⟩ =
      Except.error PyErr.nameError := by decide

/-- Claim C3: construction does not complete on the claimed inputs — a
`type.<CT>` key assigns into the undefined local `types` and a
`.<SUFFIX>` key into the undefined local `formats` (both `NameError`),
and the `version` key binds the resolved fallback to a local, leaving
`self.version_app` as `None`. -/
theorem av_init_raises_and_drops_fallback :
    avInit [("type.a/a", "version:\"v1\"")] = Except.error PyErr.nameError ∧
    avInit [(".json", "a/a")] = Except.error PyErr.nameError ∧
    avInit [("version", "app")] = Except.ok ⟨none, [], [], [], []⟩ := by
  decide

/-- Claim C4: there is no alias table — `alias.<A>` keys are silently
ignored by `__init__` and `__call__` looks the winning version up
directly, so with config
`{version: F, version.v2: B, alias.v1.1: v2}` and winning version
`v1.1` the source resolves no handle at all (the fallback slot is also
empty, by the C3 slip), while the claimed alias→canonical resolution
yields `B`. -/
theorem alias_resolution_missing :
    avInit [("version", "F"), ("version.v2", "B"), ("alias.v1.1", "v2")] =
      Except.ok ⟨none, [("v2", "B")], [], [], []⟩ ∧
    resolveApp ⟨none, [("v2", "B")], [], [], []⟩ (some "v1.1") = none ∧
    claimResolve [("version", "F"), ("version.v2", "B"),
      ("alias.v1.1", "v2")] (some "v1.1") = some "B" := by
  decide

/-- Claim C5: with no application and no fallback configured, `__call__`
still passes the unresolved handle (`None`) straight to
`request.get_response`, instead of producing the claimed server-error
response without invoking the response machinery. -/
theorem unresolved_route_not_reported :
    avInit [] = Except.ok ⟨none, [], [], [], []⟩ ∧
    codeDispatch ⟨none, [], [], [], []⟩ ⟨none, none⟩ =
      DispatchOutcome.getResponse none ∧
    specDispatch ⟨none, [], [], [], []⟩ ⟨none, none⟩ =
      DispatchOutcome.serverError ∧
    DispatchOutcome.getResponse none ≠ DispatchOutcome.serverError := by
  decide

/-- Claim C6: `param:NAME` tokens are not supported — `_parse_type_rule`
rejects the tag `param` as an unrecognized token type and installs
nothing (and the source `TypeRule` has no parameter-template slot at
all), while duplicate recognized tags do warn and overwrite as
claimed. -/
theorem param_tokens_unsupported :
    parseTypeRule "param:foo=\"one\"" =
      (⟨none, none⟩, [Warn.unrecognizedTokenType]) ∧
    parseTypeRule "type:\"bar\" type:\"baz\"" =
      (⟨some "baz", none⟩, [Warn.duplicateTokenType]) := by
  decide

/-- Claim C7: there is no `overwrite_headers` flag — `__init__` ignores
the configuration key and `__call__` rewrites the Accept header
unconditionally whenever a final content type exists, so with
`overwrite_headers = 'false'` the source still rewrites, while the
claimed flag-guarded mutation (fuzzy boolean, default True) leaves the
header unchanged. -/
theorem accept_rewrite_ignores_flag :
    avInit [("overwrite_headers", "false")] =
      Except.ok ⟨none, [], [], [], []⟩ ∧
    specOverwriteFlag [("overwrite_headers", "false")] = false ∧
    codeAcceptRewrite ⟨some "v1", some "a/a"⟩ [] =
      [("Accept", "a/a;q=1.0")] ∧
    specAcceptRewrite false ⟨some "v1", some "a/a"⟩ [] = [] := by
  decide

/-- Claim C8 (counterexample): a string ending in an unquoted separator
does *not* yield a final empty-string element —
`quoted_split('a;', ';')` is `['a']`, not the claimed `['a', '']`. -/
theorem quoted_split_no_trailing_empty :
    quotedSplit "a;" ';' = ["a"] ∧ quotedSplit "a;" ';' ≠ ["a", ""] := by
  decide

/-- Claim C10 (counterexample): an *empty* ctype template is present but
falsy, so `TypeRule('', None)({'_': 'x/y'})` returns `('x/y', None)` —
the fallback `params['_']` — not the claimed `('' % params, None) =
('', None)`. -/
theorem type_rule_empty_template :
    TypeRule.call ⟨some "", none⟩ [("_", PVal.str "x/y")] =
      Except.ok (some (PVal.str "x/y"), none) ∧
    claimCtypeEval (some "") [("_", PVal.str "x/y")] = some (PVal.str "") ∧
    some (PVal.str "x/y") ≠ some (PVal.str "") := by
  decide

theorem naiveSplit_ne_nil (sep : Char) (cs : List Char) :
    naiveSplit sep cs ≠ [] := by
  cases cs with
  | nil => simp [naiveSplit]
  | cons c rest =>
      unfold naiveSplit
      by_cases h : c = sep
      · simp [h]
      · simp only [h, if_false]
        cases hn : naiveSplit sep rest <;> simp

theorem dropLastEmpty_cons (x : List Char) (l : List (List Char))
    (h : l ≠ []) : dropLastEmpty (x :: l) = x :: dropLastEmpty l := by
  cases l with
  | nil => exact absurd rfl h
  | cons y ys =>
      unfold dropLastEmpty
      rw [List.getLast?_cons_cons]
      cases hgl : (y :: ys).getLast? with
      | none => simp at hgl
      | some v =>
          cases v with
          | nil => simp
          | cons a as => rfl

theorem naiveSplit_cons_sep (sep : Char) (rest : List Char) :
    naiveSplit sep (sep :: rest) = [] :: naiveSplit sep rest := by
  simp [naiveSplit]

theorem naiveSplit_cons_ne (sep c : Char) (rest : List Char) (h : ¬ c = sep)
    (f : List Char) (fs : List (List Char))
    (hn : naiveSplit sep rest = f :: fs) :
    naiveSplit sep (c :: rest) = (c :: f) :: fs := by
  simp [naiveSplit, h, hn]

theorem qsplitAux_sep_none (sep : Char) (rest : List Char) :
    qsplitAux sep (sep :: rest) none false false =
      [] :: qsplitAux sep rest none false false := by
  simp [qsplitAux]

theorem qsplitAux_sep_some (sep : Char) (rest acc : List Char) :
    qsplitAux sep (sep :: rest) (some acc) false false =
      acc :: qsplitAux sep rest none false false := by
  simp [qsplitAux]

theorem qsplitAux_ne_none (sep c : Char) (rest : List Char)
    (hs : ¬ c = sep) (hqc : ¬ c = '"') :
    qsplitAux sep (c :: rest) none false false =
      qsplitAux sep rest (some [c]) false false := by
  simp [qsplitAux, hs, hqc]

theorem qsplitAux_ne_some (sep c : Char) (rest acc : List Char)
    (hs : ¬ c = sep) (hqc : ¬ c = '"') :
    qsplitAux sep (c :: rest) (some acc) false false =
      qsplitAux sep rest (some (acc ++ [c])) false false := by
  simp [qsplitAux, hs, hqc]

/-- On quote-free input, `quoted_split` is the plain split with a final
empty field (after a trailing separator) dropped; the second half tracks
the partially-accumulated field. -/
theorem qsplit_noquote (sep : Char) : ∀ cs : List Char, noQuote cs →
    qsplitAux sep cs none false false = dropLastEmpty (naiveSplit sep cs) ∧
    ∀ acc : List Char, acc ≠ [] →
      qsplitAux sep cs (some acc) false false =
        dropLastEmpty (mapHead (acc ++ ·) (naiveSplit sep cs)) := by
  intro cs
  induction cs with
  | nil =>
      intro _
      refine ⟨rfl, ?_⟩
      intro acc hacc
      cases acc with
      | nil => exact absurd rfl hacc
      | cons a as => simp [qsplitAux, naiveSplit, mapHead, dropLastEmpty]
  | cons c rest ih =>
      intro hq
      have hq' : ¬ c = '"' ∧ noQuote rest := by
        unfold noQuote at hq ⊢
        simp only [List.contains_cons, Bool.or_eq_true, beq_iff_eq] at hq
        tauto
      obtain ⟨hc, hrest⟩ := hq'
      obtain ⟨ihn, ihs⟩ := ih hrest
      constructor
      · by_cases hcs : c = sep
        · subst hcs
          rw [qsplitAux_sep_none, ihn, naiveSplit_cons_sep,
            dropLastEmpty_cons _ _ (naiveSplit_ne_nil c rest)]
        · cases hn : naiveSplit sep rest with
          | nil => exact absurd hn (naiveSplit_ne_nil sep rest)
          | cons f fs =>
              rw [qsplitAux_ne_none sep c rest hcs hc,
                ihs [c] (by simp), naiveSplit_cons_ne sep c rest hcs f fs hn,
                hn]
              rfl
      · intro acc hacc
        by_cases hcs : c = sep
        · subst hcs
          rw [qsplitAux_sep_some, ihn, naiveSplit_cons_sep]
          rw [show mapHead (acc ++ ·) ([] :: naiveSplit c rest) =
            (acc ++ []) :: naiveSplit c rest from rfl]
          rw [dropLastEmpty_cons _ _ (naiveSplit_ne_nil c rest)]
          simp
        · cases hn : naiveSplit sep rest with
          | nil => exact absurd hn (naiveSplit_ne_nil sep rest)
          | cons f fs =>
              rw [qsplitAux_ne_some sep c rest acc hcs hc,
                ihs (acc ++ [c]) (by simp),
                naiveSplit_cons_ne sep c rest hcs f fs hn, hn]
              simp [mapHead]

/-- Claim C8 (amended): the quote-aware split emits an empty leading
field when the string starts with the separator, tolerates unterminated
quotes, and satisfies the claimed example; but a trailing field is
emitted only when non-empty — on quote-free input it is exactly the
plain split with a final empty field (one produced by a trailing
unquoted separator) dropped. -/
theorem quoted_split_amended :
    (∀ (s : String) (sep : Char), noQuote s.data →
        quotedSplit s sep =
          (dropLastEmpty (naiveSplit sep s.data)).map String.mk) ∧
    (∀ (s : String) (sep : Char) (rest : List Char),
        s.data = sep :: rest → ∃ l, quotedSplit s sep = "" :: l) ∧
    quotedSplit "a;b;\"c;d\"" ';' = ["a", "b", "\"c;d\""] ∧
    quotedSplit "a;\"b;c" ';' = ["a", "\"b;c"] := by
  refine ⟨?_, ?_, by decide, by decide⟩
  · intro s sep h
    unfold quotedSplit
    rw [(qsplit_noquote sep s.data h).1]
  · intro s sep rest h
    unfold quotedSplit
    rw [h]
    refine ⟨(qsplitAux sep rest none false false).map String.mk, ?_⟩
    simp [qsplitAux]

/-- Witness for C8 (amended) at `'a;'` (trailing separator, no final
empty field) and `';x'` (leading separator, empty leading field). -/
theorem quoted_split_amended_witness :
    quotedSplit "a;" ';' =
      (dropLastEmpty (naiveSplit ';' "a;".data)).map String.mk ∧
    ∃ l, quotedSplit ";x" ';' = "" :: l :=
  ⟨quoted_split_amended.1 "a;" ';' (by decide),
   quoted_split_amended.2.1 ";x" ';' ['x'] (by decide)⟩

theorem typeRuleCtype_safe (tc : Option String) (params : Dict PVal)
    (h : FmtSafe tc params) :
    typeRuleCtype tc params = Except.ok (specCtypeEval tc params) := by
  cases tc with
  | none => rfl
  | some c =>
      by_cases he : c = ""
      · simp [typeRuleCtype, specCtypeEval, he]
      · cases hf : pyFormat c params with
        | ok s => simp [typeRuleCtype, specCtypeEval, he, hf]
        | keyErr => simp [typeRuleCtype, specCtypeEval, he, hf]
        | valErr => exact absurd hf (h c rfl)

theorem typeRuleVersion_safe (tv : Option String) (params : Dict PVal)
    (h : FmtSafe tv params) :
    typeRuleVersion tv params = Except.ok (specVersionEval tv params) := by
  cases tv with
  | none => rfl
  | some v =>
      by_cases he : v = ""
      · simp [typeRuleVersion, specVersionEval, he]
      · cases hf : pyFormat v params with
        | ok s => simp [typeRuleVersion, specVersionEval, he, hf]
        | keyErr => simp [typeRuleVersion, specVersionEval, he, hf]
        | valErr => exact absurd hf (h v rfl)

/-- Claim C10 (amended): for every parameter dictionary and every rule
whose templates raise no uncaught formatting error, evaluation returns
ctype `= ctype_template % params` when a *non-empty* ctype template is
given (`None` on a missing key) and `params['_']` otherwise (`None` when
`'_'` is absent), and version `= version_template % params` when a
non-empty version template is given (`None` on a missing key) and `None`
otherwise; each field depends only on its own template, so a missing key
in one leaves the sibling unaffected.  The claim's two examples hold. -/
theorem type_rule_eval_amended :
    (∀ (t : TypeRule) (params : Dict PVal),
        FmtSafe t.ctype params → FmtSafe t.version params →
        TypeRule.call t params =
          Except.ok (specCtypeEval t.ctype params,
            specVersionEval t.version params)) ∧
    TypeRule.call ⟨none, none⟩ [("_", PVal.str "x/y")] =
      Except.ok (some (PVal.str "x/y"), none) ∧
    TypeRule.call ⟨some "c:%(k)s", none⟩ [] = Except.ok (none, none) := by
  refine ⟨?_, by decide, by decide⟩
  intro t params hc hv
  unfold TypeRule.call
  rw [typeRuleCtype_safe t.ctype params hc,
    typeRuleVersion_safe t.version params hv]
  rfl

/-- Witness for C10 (amended): a rule whose ctype template formats
(`c:K`) while its version template references an absent key (version
`None`, ctype unaffected). -/
theorem type_rule_eval_amended_witness :
    TypeRule.call ⟨some "c:%(k)s", some "v:%(j)s"⟩ [("k", PVal.str "K")] =
      Except.ok (some (PVal.str "c:K"), none) :=
  (type_rule_eval_amended.1 ⟨some "c:%(k)s", some "v:%(j)s"⟩
    [("k", PVal.str "K")] (by decide) (by decide)).trans (by decide)

theorem candKey_lt_iff (a b : Cand) :
    candKey a < candKey b ↔
      a.q < b.q ∨ (a.q = b.q ∧ starCount b.mask < starCount a.mask) := by
  unfold candKey
  rw [Prod.Lex.lt_iff]
  simp

theorem bmStep_eq_sel (ctype : String) (st : Cand)
    (mp : String × Dict PVal) :
    bmStep ctype st mp =
      match mkCand ctype mp with
      | none => st
      | some c => bmSel st c := by
  cases hq : qOf mp.2 with
  | none =>
      have hnone : mkCand ctype mp = none := by simp [mkCand, hq]
      rw [hnone]
      simp [bmStep, hq]
  | some q =>
      by_cases hm : matchMask mp.1 ctype
      · have hsome : mkCand ctype mp = some ⟨ctype, mp.1, mp.2, q⟩ := by
          simp [mkCand, hq, hm]
        rw [hsome]
        show bmStep ctype st mp = bmSel st ⟨ctype, mp.1, mp.2, q⟩
        have hL : bmStep ctype st mp =
            if q < st.q then st
            else if q = st.q ∧ starCount st.mask ≤ starCount mp.1 then st
            else ⟨ctype, mp.1, mp.2, q⟩ := by
          simp [bmStep, hq, hm]
        rw [hL]
        unfold bmSel
        have hk := candKey_lt_iff st ⟨ctype, mp.1, mp.2, q⟩
        rcases lt_trichotomy q st.q with hlt | heq | hgt
        · have hnk : ¬ candKey st < candKey ⟨ctype, mp.1, mp.2, q⟩ := by
            rw [hk]
            rintro (h | ⟨h, -⟩)
            · exact absurd (h.trans hlt) (lt_irrefl _)
            · rw [h] at hlt; exact absurd hlt (lt_irrefl _)
          rw [if_pos hlt, if_neg hnk]
        · have hne : ¬ q < st.q := by rw [heq]; exact lt_irrefl _
          by_cases hstars : starCount st.mask ≤ starCount mp.1
          · have hnk : ¬ candKey st < candKey ⟨ctype, mp.1, mp.2, q⟩ := by
              rw [hk]
              rintro (h | ⟨-, h⟩)
              · rw [heq] at h; exact absurd h (lt_irrefl _)
              · exact absurd h (not_lt.mpr hstars)
            rw [if_neg hne, if_pos ⟨heq, hstars⟩, if_neg hnk]
          · have hkp : candKey st < candKey ⟨ctype, mp.1, mp.2, q⟩ :=
              hk.mpr (Or.inr ⟨heq.symm, not_le.mp hstars⟩)
            rw [if_neg hne, if_neg (fun hcon => hstars hcon.2), if_pos hkp]
        · have h2 : ¬ (q = st.q ∧ starCount st.mask ≤ starCount mp.1) := by
            rintro ⟨hcon, -⟩
            rw [hcon] at hgt
            exact absurd hgt (lt_irrefl _)
          rw [if_neg (lt_asymm hgt), if_neg h2,
            if_pos (hk.mpr (Or.inl hgt))]
      · have hnone : mkCand ctype mp = none := by simp [mkCand, hq, hm]
        rw [hnone]
        show bmStep ctype st mp = st
        simp [bmStep, hq, hm]

theorem foldl_bmStep (ctype : String) :
    ∀ (l : List (String × Dict PVal)) (st : Cand),
      l.foldl (bmStep ctype) st =
        (l.filterMap (mkCand ctype)).foldl bmSel st := by
  intro l
  induction l with
  | nil => intro st; rfl
  | cons mp rest ih =>
      intro st
      rw [List.foldl_cons, ih, bmStep_eq_sel]
      cases hk : mkCand ctype mp with
      | none => simp [List.filterMap_cons, hk]
      | some c => simp [List.filterMap_cons, hk]

theorem foldl_nested (reqs : List (String × Dict PVal)) :
    ∀ (allowed : List String) (st : Cand),
      allowed.foldl (fun st ctype => reqs.foldl (bmStep ctype) st) st =
        (allowed.flatMap fun ctype => reqs.filterMap (mkCand ctype)).foldl
          bmSel st := by
  intro allowed
  induction allowed with
  | nil => intro st; rfl
  | cons a rest ih =>
      intro st
      rw [List.foldl_cons, ih, List.flatMap_cons, List.foldl_append,
        foldl_bmStep]

theorem foldl_argAux_eq (l : List Cand) : ∀ a : Cand,
    l.foldl (List.argAux fun b c => candKey c < candKey b) (some a) =
      some (l.foldl bmSel a) := by
  induction l with
  | nil => intro a; rfl
  | cons b rest ih =>
      intro a
      rw [List.foldl_cons, List.foldl_cons]
      have hstep : List.argAux (fun b c => candKey c < candKey b)
          (some a) b = some (bmSel a b) := by
        by_cases h : candKey a < candKey b <;> simp [List.argAux, bmSel, h]
      rw [hstep, ih]

theorem argmax_eq_foldl (l : List Cand) (a : Cand) :
    List.argmax candKey (a :: l) = some (l.foldl bmSel a) := by
  unfold List.argmax
  rw [List.foldl_cons]
  exact foldl_argAux_eq l a

/-- Claim C1 (amended): `best_match` implements exactly the seeded
selection rule — among the matching candidates with parsable `q`,
*together with the initial seed (`q = -1`, pattern `*/*`)*, the first
candidate under (highest `q`, then fewest `*`s, then earliest allowed
name in list order) wins, an unparsable `q` excludes only that
comparison, and `("", ∅)` results exactly when no candidate beats the
seed; the claim's concrete example holds. -/
theorem best_match_amended :
    (∀ (requested : String) (allowed : List String),
        bestMatch requested allowed = specBestMatch requested allowed) ∧
    bestMatch "a/a;q=0.3,a/b;q=0.5,a/c;q=0.7" ["a/a", "a/b", "a/c"] =
      ("a/c", [("_", PVal.str "a/c"), ("q", PVal.str "0.7")]) := by
  refine ⟨?_, by decide⟩
  intro requested allowed
  simp only [bestMatch, specBestMatch, bmCandidates]
  rw [foldl_nested ((quotedSplit requested ',').map parseCtype) allowed
    seedCand, argmax_eq_foldl]

/-- Claim C1 (counterexample): at `best_match('a/a;q=-2', ['a/a'])` there
is exactly one matching candidate with parsable quality (q = −2), so the
claimed rule selects `a/a`; but the source's seed (`q = -1`) outranks it
and `best_match` returns `('', {})`. -/
theorem best_match_claim_counterexample :
    bestMatch "a/a;q=-2" ["a/a"] = ("", []) ∧
    claimBestMatch "a/a;q=-2" ["a/a"] =
      ("a/a", [("_", PVal.str "a/a"), ("q", PVal.str "-2")]) := by
  constructor
  · decide
  · have h : bmCandidates "a/a;q=-2" ["a/a"] =
        [⟨"a/a", "a/a", [("_", PVal.str "a/a"), ("q", PVal.str "-2")],
          mkRat (-2) 1⟩] := by decide
    unfold claimBestMatch
    rw [h, List.argmax_singleton]

end Aversion
